import Mathlib

/-!
Verification development for the SwiftSale label-reconciliation pipeline.

This file gives a shallow embedding, in Lean 4, of the core of the
`annotate_labels_qt.py` / `parse_utils.py` / `mailing_list_manager.py`
modules: the Python string primitives the code relies on (`strip`,
`lower`, `upper`, `title`, `splitlines`, substring tests), the concrete
regular expressions it uses (modelled as deterministic scanners whose
behaviour coincides with CPython's backtracking engine on these
patterns), the address/identity/amount parsers, the mailing-list store
upsert, and the per-page state machine of
`annotate_whatnot_pdf_with_bins_and_firstname`.

Modelling conventions: text is ASCII-oriented (`Char` code points, with
Python's `str.lower`/`str.upper`/whitespace behaviour modelled on the
ASCII range plus the common control whitespace); monetary amounts are
exact cents (each parsed `Subtotal` token has the form
`<digits>.<2 digits>`, an exact number of cents, and the code only ever
adds amounts, so `Nat`-valued cents are the exact-arithmetic image of
the float values the code manipulates: `1775` models `17.75`); the SQLite table
behind `MailingListManager` is a list of rows, and the annotated output
document is the list of written pages together with the overlay each
page received.
-/

namespace SwiftSale

/-! ### Python character primitives (ASCII model) -/

/-- Whitespace characters recognised by Python's `str.strip`, `str.split`
and the regex class `\s` (ASCII/control subset). -/
def isPySpace (c : Char) : Bool :=
  c.toNat = 32 || c.toNat = 9 || c.toNat = 10 || c.toNat = 13 ||
  c.toNat = 11 || c.toNat = 12 || c.toNat = 28 || c.toNat = 29 ||
  c.toNat = 30 || c.toNat = 31 || c.toNat = 133 || c.toNat = 160

/-- ASCII letter test (regex classes `[A-Za-z]`, `[a-zA-Z]`). -/
def isAsciiAlpha (c : Char) : Bool :=
  (65 ≤ c.toNat && c.toNat ≤ 90) || (97 ≤ c.toNat && c.toNat ≤ 122)

/-- ASCII digit test (regex classes `\d`, `[0-9]`). -/
def isAsciiDigit (c : Char) : Bool :=
  48 ≤ c.toNat && c.toNat ≤ 57

/-- Python `str.lower` on one character (ASCII range). -/
def pyCharLower (c : Char) : Char :=
  if 65 ≤ c.toNat && c.toNat ≤ 90 then Char.ofNat (c.toNat + 32) else c

/-- Python `str.upper` on one character (ASCII range). -/
def pyCharUpper (c : Char) : Char :=
  if 97 ≤ c.toNat && c.toNat ≤ 122 then Char.ofNat (c.toNat - 32) else c

/-! ### Python string primitives on `List Char` -/

/-- Python `str.lower`. -/
def lowerL (s : List Char) : List Char := s.map pyCharLower

/-- Python `str.upper`. -/
def upperL (s : List Char) : List Char := s.map pyCharUpper

/-- Python `str.strip()`: drop leading and trailing whitespace. -/
def stripL (s : List Char) : List Char :=
  ((s.dropWhile isPySpace).reverse.dropWhile isPySpace).reverse

/-- Helper for `titleL`: the boolean records whether the previous
character was a letter (Python's "cased" state for ASCII). -/
def titleAux : Bool → List Char → List Char
  | _, [] => []
  | prevAlpha, c :: cs =>
    if isAsciiAlpha c then
      (if prevAlpha then pyCharLower c else pyCharUpper c) :: titleAux true cs
    else
      c :: titleAux false cs

/-- Python `str.title()`: first letter of each letter-run uppercased,
the rest lowercased. -/
def titleL (s : List Char) : List Char := titleAux false s

/-- Does `s` start with `p`? (Python `str.startswith`.) -/
def startsWithL : List Char → List Char → Bool
  | _, [] => true
  | [], _ :: _ => false
  | a :: as, b :: bs => a == b && startsWithL as bs

/-- Python substring containment `sub in hay`. -/
def containsL (hay sub : List Char) : Bool :=
  match hay with
  | [] => sub.isEmpty
  | _ :: t => startsWithL hay sub || containsL t sub

/-- Line-break characters recognised by Python `str.splitlines`
(ASCII/control subset; `\r\n` is treated as one break by the caller). -/
def isLineBreak (c : Char) : Bool :=
  c.toNat = 10 || c.toNat = 13 || c.toNat = 11 || c.toNat = 12 ||
  c.toNat = 28 || c.toNat = 29 || c.toNat = 30 || c.toNat = 133 ||
  c.toNat = 8232 || c.toNat = 8233

/-- Python `str.splitlines()`: split at line breaks, `\r\n` counting as a
single break; a trailing break does not create a final empty line. -/
def splitlinesL : List Char → List (List Char)
  | [] => []
  | c :: t =>
    if c.toNat = 13 then
      match t with
      | n :: t2 =>
        if n.toNat = 10 then [] :: splitlinesL t2 else [] :: splitlinesL (n :: t2)
      | [] => [[]]
    else if isLineBreak c then
      [] :: splitlinesL t
    else
      match splitlinesL t with
      | [] => [[c]]
      | l :: ls => (c :: l) :: ls

/-- Helper for `splitWsL`: `cur` holds the characters of the word being
read, in reverse. -/
def splitWsAux : List Char → List Char → List (List Char)
  | cur, [] => if cur.isEmpty then [] else [cur.reverse]
  | cur, c :: t =>
    if isPySpace c then
      if cur.isEmpty then splitWsAux [] t else cur.reverse :: splitWsAux [] t
    else
      splitWsAux (c :: cur) t

/-- Python `str.split()` with no argument: split on whitespace runs,
discarding empty fields. -/
def splitWsL (s : List Char) : List (List Char) := splitWsAux [] s

/-- The string `" ".join(lines)`. -/
def joinSpace : List (List Char) → List Char
  | [] => []
  | [l] => l
  | l :: ls => l ++ (' ' :: joinSpace ls)

/-- The digit list read as a decimal natural number. -/
def natOfDigits (ds : List Char) : Nat :=
  ds.foldl (fun n c => n * 10 + (c.toNat - 48)) 0

/-! ### The concrete regular expressions, as deterministic scanners

Each scanner below models one regex of the source with CPython `re`
semantics (leftmost match; greedy/lazy backtracking, which is
deterministic for these patterns because `(`, whitespace, letters and
digits are mutually exclusive character classes at every choice point).
-/

/-- Model of the regex fragment `\s*\(([^)]+)\)` applied at the current
position: skip the (maximal) whitespace run, require `(`, a nonempty run
of non-`)` characters, and `)`. Returns the captured group. Since `(` is
not whitespace, the greedy `\s*` has exactly one viable length. -/
def wsThenParen (s : List Char) : Option (List Char) :=
  match s.dropWhile isPySpace with
  | c :: rest =>
    if c = '(' then
      let content := rest.takeWhile (fun d => d ≠ ')')
      if content.isEmpty then none
      else
        match rest.drop content.length with
        | d :: _ => if d = ')' then some content else none
        | [] => none
    else none
  | [] => none

/-- Helper for `searchNameParen`: `accRev` holds (reversed) the
characters consumed by the lazy group `(.+?)` so far, always at least
one. Mirrors the backtracking order of `re.search(r"(.+?)\s*\(([^)]+)\)", s)`:
the lazy group grows one character at a time. -/
def searchNPAux (accRev : List Char) (rest : List Char) : Option (List Char × List Char) :=
  match wsThenParen rest with
  | some content => some (accRev.reverse, content)
  | none =>
    match rest with
    | [] => none
    | c :: t => searchNPAux (c :: accRev) t

/-- Model of `re.search(r"(.+?)\s*\(([^)]+)\)", s)` (used by
`parse_packing_slip_address` on one line): returns
`(group 1, group 2)` of the match, if any. A match, when one exists,
always starts at position 0 with a nonempty lazy prefix. -/
def searchNameParen (s : List Char) : Option (List Char × List Char) :=
  match s with
  | [] => none
  | c :: t => searchNPAux [c] t

/-- Model of the regex fragment `[A-Za-z]+\s+[A-Za-z]+` applied at the
current position; returns the matched text and the remainder. All three
components are forced maximal (each is followed by a class disjoint from
its own). -/
def twoWords (s : List Char) : Option (List Char × List Char) :=
  let w1 := s.takeWhile isAsciiAlpha
  if w1.isEmpty then none
  else
    let r1 := s.drop w1.length
    let sp := r1.takeWhile isPySpace
    if sp.isEmpty then none
    else
      let r2 := r1.drop sp.length
      let w2 := r2.takeWhile isAsciiAlpha
      if w2.isEmpty then none
      else some (w1 ++ sp ++ w2, r2.drop w2.length)

/-- One attempt of `([A-Za-z]+\s+[A-Za-z]+)?\s*\(([^)]+)\)` at the
current position: first with the optional name group (preferred by the
engine), then without it. -/
def tryOptNameParenAt (s : List Char) : Option (Option (List Char) × List Char) :=
  match twoWords s with
  | some (g1, rest) =>
    match wsThenParen rest with
    | some g2 => some (some g1, g2)
    | none =>
      match wsThenParen s with
      | some g2 => some (none, g2)
      | none => none
  | none =>
    match wsThenParen s with
    | some g2 => some (none, g2)
    | none => none

/-- Model of `re.search(r"([A-Za-z]+\s+[A-Za-z]+)?\s*\(([^)]+)\)", s)`
(used by `extract_username_and_pickup_firstname`): leftmost match,
trying each start position in turn. -/
def searchOptNameParen : List Char → Option (Option (List Char) × List Char)
  | [] =>
    match wsThenParen ([] : List Char) with
    | some g2 => some (none, g2)
    | none => none
  | c :: t =>
    match tryOptNameParenAt (c :: t) with
    | some r => some r
    | none => searchOptNameParen t

/-- Model of `re.split(r"\([^)]+\)", s, maxsplit=1)[-1]`: the text after
the first parenthesized group, or the whole text when there is none. -/
def findParenSplit : List Char → Option (List Char)
  | [] => none
  | c :: t =>
    if c = '(' then
      let content := t.takeWhile (fun d => d ≠ ')')
      if content.isEmpty then findParenSplit t
      else
        match t.drop content.length with
        | d :: after => if d = ')' then some after else findParenSplit t
        | [] => none
    else findParenSplit t

/-- The text after the first `\([^)]+\)` group (the whole text when the
pattern does not occur). -/
def afterUserSplit (s : List Char) : List Char := (findParenSplit s).getD s

/-- Model of `re.split(r"[.,]", s)`: split at every `.` or `,`. -/
def splitPunct : List Char → List (List Char)
  | [] => [[]]
  | c :: t =>
    if c = '.' || c = ',' then
      [] :: splitPunct t
    else
      match splitPunct t with
      | [] => [[c]]
      | g :: gs => (c :: g) :: gs

/-- Case-insensitive literal match: drops `pat` from the front of `s`
comparing lowercased characters; returns the remainder on success. -/
def dropCi : List Char → List Char → Option (List Char)
  | [], s => some s
  | _ :: _, [] => none
  | p :: ps, c :: cs => if pyCharLower c = pyCharLower p then dropCi ps cs else none

/-- The tail `\s?\d+[a-zA-Z]?$` of the unit-line regex, applied after an
optional keyword: optional single whitespace, one or more digits, an
optional single letter, end of string. -/
def unitTail (s : List Char) : Bool :=
  let s1 := match s with
    | c :: t => if isPySpace c then t else s
    | [] => s
  let ds := s1.takeWhile isAsciiDigit
  if ds.isEmpty then false
  else
    match s1.drop ds.length with
    | [] => true
    | [c] => isAsciiAlpha c
    | _ => false

/-- Model of `re.match(r"^(ste|apt|unit|fl|#)?\s?\d+[a-zA-Z]?$", s, re.IGNORECASE)`
as a boolean: alternatives are tried left to right, then the empty
option. -/
def unitLineMatch (s : List Char) : Bool :=
  ([ "ste", "apt", "unit", "fl", "#", "" ].map String.data).any fun kw =>
    match dropCi kw s with
    | some rest => unitTail rest
    | none => false

/-- One attempt of `(?i)Subtotal:\s*\$([0-9]+\.[0-9]{2})` at the current
position: the literal `subtotal:` (case-insensitive), a whitespace run,
`$`, one or more digits, `.`, and exactly two digits. Returns the
captured amount as an exact number of cents. -/
def trySubtotalAt (s : List Char) : Option Nat :=
  match dropCi "subtotal:".data s with
  | none => none
  | some r1 =>
    match r1.dropWhile isPySpace with
    | c :: r2 =>
      if c = '$' then
        let ds := r2.takeWhile isAsciiDigit
        if ds.isEmpty then none
        else
          match r2.drop ds.length with
          | d :: r3 =>
            if d = '.' then
              match r3 with
              | a :: b :: _ =>
                if isAsciiDigit a && isAsciiDigit b then
                  some (natOfDigits ds * 100 + (a.toNat - 48) * 10 + (b.toNat - 48))
                else none
              | _ => none
            else none
          | [] => none
      else none
    | [] => none

/-- Sum of all `Subtotal` matches, scanning every start position. This
agrees with `re.findall`'s non-overlapping left-to-right scan because no
match can begin strictly inside another match's span (the span contains
no second `s` after its first character). -/
def spentScan : List Char → Nat
  | [] => 0
  | c :: t =>
    (match trySubtotalAt (c :: t) with
     | some v => v
     | none => 0) + spentScan t

/-! ### `parse_utils.py` -/

/-- Model of `parse_utils.extract_spent_amount`: sums every
case-insensitive occurrence of `Subtotal: $<digits>.<2 digits>` in the
page text (`0` when there is none), in cents. -/
def extract_spent_amount (page_text : String) : Nat :=
  spentScan page_text.data

/-- The non-blank stripped line list of
`parse_packing_slip_address` (`[line.strip() for line in
page_text.splitlines() if line.strip()]`). -/
def cleanLines (page_text : String) : List (List Char) :=
  ((splitlinesL page_text.data).map stripL).filter (fun l => !l.isEmpty)

/-- Step 1 of `parse_packing_slip_address`: find the first line that
does not contain `new buyer` (case-insensitively) and matches
`(.+?)\s*\(([^)]+)\)`; return the stripped groups and the line list from
that line onward. -/
def findIdentity : List (List Char) → Option (List Char × List Char × List (List Char))
  | [] => none
  | l :: ls =>
    if containsL (lowerL l) "new buyer".data then
      findIdentity ls
    else
      match searchNameParen l with
      | some (g1, g2) => some (stripL g1, stripL g2, l :: ls)
      | none => findIdentity ls

/-- The comma/period-delimited segment list that
`parse_packing_slip_address` computes after stripping everything up to
and including the parenthesized username (empty when no identity line is
found). -/
def partsOf (page_text : String) : List (List Char) :=
  match findIdentity (cleanLines page_text) with
  | none => []
  | some (_, _, rest) =>
    let addressBlock := joinSpace rest
    let afterUsername := stripL (afterUserSplit addressBlock)
    ((splitPunct afterUsername).map stripL).filter (fun p => !p.isEmpty)

/-- A parsed mailing address, as returned by
`parse_packing_slip_address`. -/
structure AddressData where
  full_name : String
  username : String
  address_line_1 : String
  address_line_2 : String
  city : String
  state : String
  zip_code : String
  country : String
deriving DecidableEq, Repr

/-- The "smart address line 2 detection" test of
`parse_packing_slip_address` on segment `second`. -/
def isAddress2 (second : List Char) : Bool :=
  ([ "ste", "apt", "unit", "fl", "bldg", "#" ].map String.data).any
      (fun k => startsWithL (lowerL second) k) ||
  unitLineMatch second ||
  (((second.any isAsciiAlpha) && !(second.any (fun c => 97 ≤ c.toNat && c.toNat ≤ 122))) &&
    (splitWsL second).length ≤ 3)

/-- Model of `parse_utils.parse_packing_slip_address`. -/
def parse_packing_slip_address (page_text : String) : Option AddressData :=
  match findIdentity (cleanLines page_text) with
  | none => none
  | some (full_name, username, _) =>
    if full_name.isEmpty || username.isEmpty then none
    else
      match partsOf page_text with
      | p0 :: p1 :: p2 :: p3 :: rest =>
        let six : Bool := isAddress2 p1 && decide (2 ≤ rest.length)
        if six then
          match rest with
          | p4 :: p5 :: _ =>
            some { full_name := ⟨titleL full_name⟩, username := ⟨lowerL username⟩,
                   address_line_1 := ⟨titleL p0⟩, address_line_2 := ⟨titleL p1⟩,
                   city := ⟨titleL p2⟩, state := ⟨upperL p3⟩,
                   zip_code := ⟨p4⟩, country := ⟨upperL p5⟩ }
          | _ => none
        else
          some { full_name := ⟨titleL full_name⟩, username := ⟨lowerL username⟩,
                 address_line_1 := ⟨titleL p0⟩, address_line_2 := "",
                 city := ⟨titleL p1⟩, state := ⟨upperL p2⟩,
                 zip_code := ⟨p3⟩,
                 country := ⟨upperL ((rest.head?).getD "US".data)⟩ }
      | _ => none

/-! ### `annotate_labels_qt.extract_username_and_pickup_firstname` -/

/-- Python truthiness of a string. -/
def strTruthy (s : String) : Bool := !s.data.isEmpty

/-- Python truthiness of an `Optional[str]`. -/
def optStrTruthy : Option String → Bool
  | some s => strTruthy s
  | none => false

/-- Inner loop of `extract_username_and_pickup_firstname`: scan the
lines after the marker line, skipping blank lines, until a
`NAME (username)`-shaped match with a username other than the
`new buyer!` placeholder is found. -/
def scanIdentityLines : List (List Char) → Option String × Option String
  | [] => (none, none)
  | l :: ls =>
    if (stripL l).isEmpty then scanIdentityLines ls
    else
      match searchOptNameParen (stripL l) with
      | some (g1, g2) =>
        let first_name : Option String :=
          match g1 with
          | some g => if g.isEmpty then none else some ⟨stripL g⟩
          | none => none
        let username : String := ⟨lowerL (stripL g2)⟩
        if username ≠ "new buyer!" then (some username, first_name)
        else scanIdentityLines ls
      | none => scanIdentityLines ls

/-- Outer loop of `extract_username_and_pickup_firstname`: find the
first line whose stripped, lowercased form starts with one of the
marker phrases, then scan the following lines. -/
def scanMarker : List (List Char) → Option String × Option String
  | [] => (none, none)
  | l :: ls =>
    let trimmed := lowerL (stripL l)
    if startsWithL trimmed "ships to:".data ||
       startsWithL trimmed "pickup to:".data ||
       startsWithL trimmed "pickup address:".data then
      scanIdentityLines ls
    else
      scanMarker ls

/-- Model of `annotate_labels_qt.extract_username_and_pickup_firstname`:
returns `(username, first_name)`, both `none` when no marker or no valid
identity line is found. -/
def extract_username_and_pickup_firstname (page_text : String) :
    Option String × Option String :=
  scanMarker (splitlinesL page_text.data)

/-! ### `mailing_list_manager.MailingListManager` -/

/-- The argument of `MailingListManager.add_or_update_entry` as built by
the pipeline (the `mailing_entry` dict). -/
structure MailingEntry where
  full_name : String
  username : String
  email : String
  address_line_1 : String
  address_line_2 : String
  city : String
  state : String
  zip_code : String
  spent : Nat
  order_date : String
  order_id : String
deriving DecidableEq, Repr

/-- One row of the `mailing_list` SQLite table. -/
structure MailRow where
  full_name : String
  username : String
  email : String
  address_line_1 : String
  address_line_2 : String
  city : String
  state : String
  zip_code : String
  order_date : String
  order_id : String
  num_orders : Nat
  spent : Nat
  checked : Nat
deriving DecidableEq, Repr

/-- The dedup key test of `add_or_update_entry`: exact string equality
on `(full_name, address_line_1, city, state, zip_code)`. -/
def matchesKey (e : MailingEntry) (r : MailRow) : Bool :=
  r.full_name == e.full_name && r.address_line_1 == e.address_line_1 &&
  r.city == e.city && r.state == e.state && r.zip_code == e.zip_code

/-- The row inserted by `add_or_update_entry` when no existing row
matches: `num_orders` comes from the column default `1` (the INSERT does
not name it) and `checked` is `0`. -/
def rowOfEntry (e : MailingEntry) : MailRow :=
  { full_name := e.full_name, username := e.username, email := e.email,
    address_line_1 := e.address_line_1, address_line_2 := e.address_line_2,
    city := e.city, state := e.state, zip_code := e.zip_code,
    order_date := e.order_date, order_id := e.order_id,
    num_orders := 1, spent := e.spent, checked := 0 }

/-- Model of `MailingListManager.add_or_update_entry` acting on the
table: if some row matches the dedup key, the table is returned
unchanged (the code logs "Duplicate mailing entry skipped" and performs
no UPDATE); otherwise the new row is appended. -/
def add_or_update_entry (table : List MailRow) (e : MailingEntry) : List MailRow :=
  if table.any (matchesKey e) then table else table ++ [rowOfEntry e]

/-! ### `annotate_whatnot_pdf_with_bins_and_firstname` — the page state machine -/

/-- Page classification: `"local pickup order" in page_text.lower() or
"pickup address:" in page_text.lower()`. -/
def isPickupTxt (page_text : String) : Bool :=
  containsL (lowerL page_text.data) "local pickup order".data ||
  containsL (lowerL page_text.data) "pickup address:".data

/-- Page classification: `"packing slip" in page_text.lower()`. -/
def isPackingSlipTxt (page_text : String) : Bool :=
  containsL (lowerL page_text.data) "packing slip".data

/-- Page classification: order-boundary page (`is_new_label`). -/
def isNewLabelTxt (page_text : String) : Bool :=
  isPickupTxt page_text || isPackingSlipTxt page_text

/-- The `bin_map` dict: normalized (stripped, lowercased) username to
bin number, later rows overwriting earlier ones on key collision. -/
def normalizeUser (s : String) : String := ⟨lowerL (stripL s.data)⟩

/-- Insert into an association-list model of a Python dict (replace on
existing key, append otherwise). -/
def dictSet (m : List (String × Int)) (k : String) (v : Int) : List (String × Int) :=
  if m.any (fun p => p.1 == k) then
    m.map (fun p => if p.1 == k then (k, v) else p)
  else m ++ [(k, v)]

/-- `dict.get`. -/
def dictGet (m : List (String × Int)) (k : String) : Option Int :=
  (m.find? (fun p => p.1 == k)).map (fun p => p.2)

/-- The `bin_map` built from the `bin_assignments` rows:
`{row[0].strip().lower(): row[1] for row in rows}`. -/
def binMapOf (rows : List (String × Int)) : List (String × Int) :=
  rows.foldl (fun m r => dictSet m (normalizeUser r.1) r.2) []

/-- The `current_address_data` dict carried between pages. -/
structure CurAddr where
  full_name : String
  username : String
  email : String
  address_line_1 : String
  address_line_2 : String
  city : String
  state : String
  zip_code : String
deriving DecidableEq, Repr

/-- The overlay stamped onto a written page: a bin stamp (optionally
with the pickup first-name mark) or the unassigned/giveaway fallback
("Givvy or Flash Sale?"). -/
inductive Overlay where
  | binStamp (bin : Int) (firstMark : Option String)
  | fallback
deriving DecidableEq, Repr

/-- One page written to the output document: the index of the input
page it came from and the overlay merged onto it, if any. -/
structure OutPage where
  idx : Nat
  overlay : Option Overlay
deriving DecidableEq, Repr

/-- The mutable state of the annotation loop, plus the run's observable
effects (written pages, skipped-page records, the sequence of
`add_or_update_entry` calls). -/
structure RunState where
  currentBuyer : Option String
  currentFirstName : Option String
  currentSpentTotal : Nat
  currentAddressData : Option CurAddr
  savedUsernames : List String
  skippedPages : List (Nat × String)
  outputPages : List OutPage
  upserts : List MailingEntry
deriving DecidableEq, Repr

/-- The initial loop state. -/
def initState : RunState :=
  { currentBuyer := none, currentFirstName := none, currentSpentTotal := 0,
    currentAddressData := none, savedUsernames := [], skippedPages := [],
    outputPages := [], upserts := [] }

/-- `f"PG{n:03}"`. -/
def pgTag (n : Nat) : String :=
  let s := toString n
  "PG" ++ (if s.length < 3 then (⟨List.replicate (3 - s.length) '0'⟩ ++ s) else s)

/-- The `mailing_entry` dict built at flush time from
`current_address_data`, the running total, today's date and the page
tag. -/
def mkEntry (a : CurAddr) (spent : Nat) (today tag : String) : MailingEntry :=
  { full_name := a.full_name, username := a.username, email := a.email,
    address_line_1 := a.address_line_1, address_line_2 := a.address_line_2,
    city := a.city, state := a.state, zip_code := a.zip_code,
    spent := spent, order_date := today, order_id := tag }

/-- The flush block at the top of the boundary branch: when
`current_buyer and current_address_data` is truthy, upsert the pending
entry unless the buyer was already flushed this run, then reset the
running total to `0`. -/
def flushStep (today : String) (idx : Nat) (st : RunState) : RunState :=
  match st.currentBuyer, st.currentAddressData with
  | some buyer, some addr =>
    if strTruthy buyer then
      let st1 :=
        if st.savedUsernames.contains buyer then st
        else
          { st with
            upserts := st.upserts ++ [mkEntry addr st.currentSpentTotal today (pgTag idx)],
            savedUsernames := st.savedUsernames ++ [buyer] }
      { st1 with currentSpentTotal := 0 }
    else st
  | _, _ => st

/-- The two `continue` paths of the boundary branch (`no_username`,
`no_address_data`): record the skip and write the page with no
overlay. -/
def skipPage (reason : String) (idx : Nat) (st1 : RunState) : RunState :=
  { st1 with
    skippedPages := st1.skippedPages ++ [(idx, reason)],
    outputPages := st1.outputPages ++ [{ idx := idx, overlay := none }] }

/-- The boundary branch after identity and address both parsed: install
the new pending buyer/first-name/address, seed the running total with
this page's amount, and stamp the page (bin stamp when the bin lookup is
truthy, otherwise the giveaway fallback plus a skip record). -/
def newBuyerStep (binMap : List (String × Int)) (idx : Nat) (txt : String)
    (spent : Nat) (er : Option String × Option String) (ad : AddressData)
    (st1 : RunState) : RunState :=
  let cb : String := ⟨lowerL ((er.1.getD "").data)⟩
  let pickupNote := if isPickupTxt txt then "PICK UP" else ad.address_line_2
  let cad : CurAddr :=
    { full_name := ad.full_name, username := cb, email := "",
      address_line_1 := ad.address_line_1, address_line_2 := pickupNote,
      city := ad.city, state := ad.state, zip_code := ad.zip_code }
  let st2 : RunState :=
    { st1 with currentBuyer := some cb, currentFirstName := er.2,
               currentAddressData := some cad, currentSpentTotal := spent }
  match dictGet binMap cb with
  | some b =>
    if b ≠ 0 then
      let mark := if isPickupTxt txt && optStrTruthy er.2 then er.2 else none
      { st2 with
        outputPages := st2.outputPages ++
          [{ idx := idx, overlay := some (.binStamp b mark) }] }
    else
      { st2 with
        skippedPages := st2.skippedPages ++
          [(idx, if strTruthy cb then cb else "unknown")],
        outputPages := st2.outputPages ++
          [{ idx := idx, overlay := some .fallback }] }
  | none =>
    { st2 with
      skippedPages := st2.skippedPages ++
        [(idx, if strTruthy cb then cb else "unknown")],
      outputPages := st2.outputPages ++
        [{ idx := idx, overlay := some .fallback }] }

/-- The continuation branch: accumulate the page's amount into the
pending buyer's running total (when a buyer is pending) and write the
page with no overlay. -/
def contStep (spent : Nat) (idx : Nat) (st : RunState) : RunState :=
  let st1 :=
    if optStrTruthy st.currentBuyer then
      { st with currentSpentTotal := st.currentSpentTotal + spent }
    else st
  { st1 with outputPages := st1.outputPages ++ [{ idx := idx, overlay := none }] }

/-- One iteration of the page loop of
`annotate_whatnot_pdf_with_bins_and_firstname`. -/
def processPage (binMap : List (String × Int)) (today : String)
    (st : RunState) (idx : Nat) (txt : String) : RunState :=
  let spent := extract_spent_amount txt
  if isNewLabelTxt txt then
    let st1 := flushStep today idx st
    let er := extract_username_and_pickup_firstname txt
    if !optStrTruthy er.1 then
      skipPage "no_username" idx st1
    else
      match parse_packing_slip_address txt with
      | none => skipPage "no_address_data" idx st1
      | some ad => newBuyerStep binMap idx txt spent er ad st1
  else
    contStep spent idx st

/-- The page loop, starting at page index `idx`. -/
def runPages (binMap : List (String × Int)) (today : String)
    (st : RunState) (idx : Nat) : List String → RunState
  | [] => st
  | p :: ps => runPages binMap today (processPage binMap today st idx p) (idx + 1) ps

/-- The end-of-document flush: upsert the pending entry when
`current_buyer and current_address_data and current_buyer not in
saved_usernames`, tagging it with the total page count. -/
def eofFlush (today : String) (pageCount : Nat) (st : RunState) : RunState :=
  match st.currentBuyer, st.currentAddressData with
  | some buyer, some addr =>
    if strTruthy buyer && !(st.savedUsernames.contains buyer) then
      { st with upserts := st.upserts ++
          [mkEntry addr st.currentSpentTotal today (pgTag pageCount)] }
    else st
  | _, _ => st

/-- Model of `annotate_whatnot_pdf_with_bins_and_firstname`: run the
page loop over the extracted page texts from the initial state, then the
end-of-document flush. `binMap` is the preloaded `bin_map`; `today` is
the ambient `datetime.today()` date string. -/
def runPipeline (binMap : List (String × Int)) (today : String)
    (pages : List String) : RunState :=
  eofFlush today pages.length (runPages binMap today initState 0 pages)

/-- Whether a page receives an overlay: exactly the boundary pages whose
identity and address both parse (the `continue` paths skip annotation,
and continuation pages have `draw_overlay = False`). -/
def pageGetsOverlay (txt : String) : Bool :=
  isNewLabelTxt txt && optStrTruthy (extract_username_and_pickup_firstname txt).1 &&
  (parse_packing_slip_address txt).isSome

/-! ### Concrete data used by witnesses and counterexamples -/

/-- An existing mailing-list row for Jane Doe with `spent = 5`,
`num_orders = 1` (spent amounts in cents: `500` models `5.00`). -/
def sampleRow : MailRow :=
  { full_name := "Jane Doe", username := "janed", email := "",
    address_line_1 := "123 Main St", address_line_2 := "",
    city := "Springfield", state := "IL", zip_code := "62704",
    order_date := "2026-01-01", order_id := "PG001",
    num_orders := 1, spent := 500, checked := 0 }

/-- A later entry for the same buyer and address with `spent = 300`
cents. -/
def sampleEntry : MailingEntry :=
  { full_name := "Jane Doe", username := "janed", email := "",
    address_line_1 := "123 Main St", address_line_2 := "",
    city := "Springfield", state := "IL", zip_code := "62704",
    spent := 300, order_date := "2026-02-02", order_id := "PG007" }

/-- A boundary page for buyer `janed` with a 10.00 subtotal. -/
def pgJaned : String :=
  "Packing Slip\nSubtotal: $10.00\nShips to:\nJane Doe (janed)\n123 Main St, Springfield, IL, 62704"

/-- A continuation page with a 5.50 subtotal. -/
def pgContA : String := "continuation items\nSubtotal: $5.50"

/-- A continuation page with a 2.25 subtotal. -/
def pgContB : String := "more items\nSubtotal: $2.25"

/-- A boundary page for buyer `bobr` with a 9.99 subtotal. -/
def pgBobr : String :=
  "Packing Slip\nSubtotal: $9.99\nShips to:\nBob Roe (bobr)\n1 Oak Ave, Columbus, OH, 43004"

/-- A boundary page with no recoverable identity. -/
def pgNoUser : String := "Packing Slip\nno identity here"

/-- A boundary page whose identity parses but whose address does not
(only two segments). -/
def pgNoAddr : String := "Packing Slip\nShips to:\nEve Xu (evex)\nonly, two"

/-- A pickup boundary page for `janed` whose address block carries a
suite line (`Ste 4`) and a 7.00 subtotal. -/
def pgPickup : String :=
  "Local Pickup Order\nSubtotal: $7.00\nPickup to:\nJane Doe (janed)\n123 Main St, Ste 4, Springfield, IL, 62704, US"

/-! ## Claim C1 — `add_or_update_entry` dedup behaviour -/

/-- C1 (counterexample): the claim says a key match leaves identity
fields untouched while `spent` and `num_orders` are accumulated. On a
table holding Jane Doe with `spent = 500` cents and `num_orders = 1`, a
new matching entry with `spent = 300` cents leaves the table entirely
unchanged: the row keeps `spent = 500` and `num_orders = 1` instead of
the accumulated `(800, 2)` the claim requires. -/
theorem C1_counterexample :
    matchesKey sampleEntry sampleRow = true ∧
    sampleRow.spent = 500 ∧ sampleRow.num_orders = 1 ∧ sampleEntry.spent = 300 ∧
    add_or_update_entry [sampleRow] sampleEntry = [sampleRow] ∧
    ¬ (add_or_update_entry [sampleRow] sampleEntry).map (fun r => (r.spent, r.num_orders)) =
        [(sampleRow.spent + sampleEntry.spent, sampleRow.num_orders + 1)] := by
  decide

/-- C1 (amended): if an existing row matches the new entry on
`(full_name, address_line_1, city, state, zip_code)` by exact string
equality, the table is left entirely unchanged (the new entry is
discarded; nothing is accumulated); if no row matches, a new row is
appended carrying the entry's fields and `spent`, with `num_orders = 1`
from the column default. -/
theorem C1_match_skips_no_match_inserts (t : List MailRow) (e : MailingEntry) :
    ((∃ r ∈ t, matchesKey e r = true) → add_or_update_entry t e = t) ∧
    ((∀ r ∈ t, matchesKey e r = false) →
      add_or_update_entry t e = t ++ [rowOfEntry e] ∧
      (rowOfEntry e).num_orders = 1 ∧ (rowOfEntry e).spent = e.spent ∧
      (rowOfEntry e).full_name = e.full_name ∧ (rowOfEntry e).username = e.username ∧
      (rowOfEntry e).address_line_1 = e.address_line_1 ∧
      (rowOfEntry e).address_line_2 = e.address_line_2 ∧
      (rowOfEntry e).city = e.city ∧ (rowOfEntry e).state = e.state ∧
      (rowOfEntry e).zip_code = e.zip_code) := by
  constructor
  · rintro ⟨r, hr, hm⟩
    have hany : t.any (matchesKey e) = true := List.any_eq_true.mpr ⟨r, hr, hm⟩
    simp [add_or_update_entry, hany]
  · intro h
    have hany : t.any (matchesKey e) = false := by
      rw [List.any_eq_false]
      intro x hx
      simp [h x hx]
    simp [add_or_update_entry, hany, rowOfEntry]

/-- C1 (witness): the amended theorem applied at concrete inputs — the
matching case leaves the singleton table unchanged, and the
non-matching case appends the default row to the empty table. -/
theorem C1_match_skips_no_match_inserts_witness :
    add_or_update_entry [sampleRow] sampleEntry = [sampleRow] ∧
    add_or_update_entry [] sampleEntry = [rowOfEntry sampleEntry] :=
  ⟨(C1_match_skips_no_match_inserts [sampleRow] sampleEntry).1
      ⟨sampleRow, by decide, by decide⟩,
   ((C1_match_skips_no_match_inserts [] sampleEntry).2 (by decide)).1⟩

/-! ## Claim C3 — first name under ships/pickup markers -/

/-- C3 (counterexample): the claim says a shipping marker never yields a
populated `first_name`. On the page `"ships to:\nJane Doe (janed)"`,
`extract_username_and_pickup_firstname` returns
`("janed", "Jane Doe")` — the first name is populated even though the
marker is the shipping variant (the function has no pickup branch at
all). -/
theorem C3_counterexample :
    extract_username_and_pickup_firstname "ships to:\nJane Doe (janed)" =
      (some "janed", some "Jane Doe") ∧
    (extract_username_and_pickup_firstname "ships to:\nJane Doe (janed)").2 ≠ none := by
  decide

/-- Splitting a text that starts with a break-free line: the first line
comes off unchanged. -/
theorem splitlinesL_append_newline (pre : List Char)
    (h : ∀ c ∈ pre, isLineBreak c = false) (rest : List Char) :
    splitlinesL (pre ++ '\n' :: rest) = pre :: splitlinesL rest := by
  induction pre with
  | nil =>
    rw [List.nil_append, splitlinesL.eq_def]
    rfl
  | cons c cs ih =>
    have hc : isLineBreak c = false := h c (List.mem_cons_self c cs)
    have hcs : ∀ d ∈ cs, isLineBreak d = false := fun d hd => h d (List.mem_cons_of_mem c hd)
    have h13 : ¬ c.toNat = 13 := by
      intro hx
      simp [isLineBreak, hx] at hc
    rw [List.cons_append, splitlinesL.eq_def]
    simp only []
    rw [if_neg h13, if_neg (by simp [hc]), ih hcs]

/-- C3 (amended): `extract_username_and_pickup_firstname` treats the
`"ships to:"` and `"pickup to:"` markers identically: for every
remainder of the page, the extracted `(username, first_name)` pair is
the same under both markers — the first name is populated (or not)
regardless of the marker variant, and only the downstream annotation
step restricts the first-name stamp to pickup pages. -/
theorem C3_ships_pickup_same_extraction (rest : String) :
    extract_username_and_pickup_firstname ("ships to:\n" ++ rest) =
    extract_username_and_pickup_firstname ("pickup to:\n" ++ rest) := by
  obtain ⟨l⟩ := rest
  have hs : ("ships to:\n" ++ String.mk l).data = "ships to:".data ++ '\n' :: l := rfl
  have hp : ("pickup to:\n" ++ String.mk l).data = "pickup to:".data ++ '\n' :: l := rfl
  unfold extract_username_and_pickup_firstname
  rw [hs, hp, splitlinesL_append_newline _ (by decide),
      splitlinesL_append_newline _ (by decide)]
  simp only [scanMarker]
  rw [if_pos (by decide), if_pos (by decide)]

/-! ## Claim C4 — subtotal extraction and per-buyer accumulation -/

/-- A successful case-insensitive literal match means the lowered text
starts with the (already lowercase) pattern. -/
theorem dropCi_startsWith :
    ∀ (pat : List Char), lowerL pat = pat →
    ∀ (s r : List Char), dropCi pat s = some r →
      startsWithL (lowerL s) pat = true := by
  intro pat
  induction pat with
  | nil =>
    intro _ s r _
    cases lowerL s <;> rfl
  | cons p ps ih =>
    intro hpat s r h
    cases s with
    | nil => cases h
    | cons c cs =>
      rw [dropCi.eq_def] at h
      simp only [] at h
      split at h
      case isTrue heq =>
        have hp : pyCharLower p = p := by
          have := congrArg List.head? hpat
          simpa [lowerL] using this
        have hps : lowerL ps = ps := by
          have := congrArg List.tail hpat
          simpa [lowerL] using this
        have h1 : (pyCharLower c == p) = true := by
          rw [heq, hp]
          simp
        simp only [lowerL, List.map_cons, startsWithL, h1, Bool.true_and]
        exact ih hps cs r h
      case isFalse => cases h

/-- No case-insensitive occurrence of `subtotal:` in the text means the
amount scan yields zero. -/
theorem spentScan_zero_of_no_subtotal :
    ∀ s : List Char, containsL (lowerL s) "subtotal:".data = false →
      spentScan s = 0 := by
  intro s
  induction s with
  | nil =>
    intro _
    rfl
  | cons c t ih =>
    intro h
    have hx : (startsWithL (pyCharLower c :: lowerL t) "subtotal:".data ||
        containsL (lowerL t) "subtotal:".data) = false := by
      rw [← containsL]
      simpa [lowerL] using h
    obtain ⟨h1, h2⟩ := Bool.or_eq_false_iff.mp hx
    have ht : spentScan t = 0 := ih (by simpa [lowerL] using h2)
    have hnone : trySubtotalAt (c :: t) = none := by
      cases hdc : dropCi "subtotal:".data (c :: t) with
      | none =>
        rw [trySubtotalAt, hdc]
      | some r1 =>
        exfalso
        have hsw := dropCi_startsWith "subtotal:".data (by decide) (c :: t) r1 hdc
        rw [show lowerL (c :: t) = pyCharLower c :: lowerL t from rfl] at hsw
        rw [hsw] at h1
        cases h1
    show (match trySubtotalAt (c :: t) with
      | some v => v
      | none => 0) + spentScan t = 0
    rw [hnone, ht]

/-- C4: `extract_spent_amount` sums every case-insensitive
`Subtotal: $<digits>.<2 digits>` occurrence (in cents); when the text
contains no case-insensitive `subtotal:` at all, the result is zero. In
the pipeline, a boundary page for `janed` with a 10.00 subtotal followed
by continuation pages with 5.50 and 2.25 flushes a mailing entry whose
`spent` is 1775 cents (17.75), and the running total is reset at the
flush, so the next buyer's entry carries only his own 999 cents (9.99)
— after the second boundary page the running total is exactly that
page's own amount. -/
theorem C4_subtotal_accumulation_and_reset :
    (∀ s : String, containsL (lowerL s.data) "subtotal:".data = false →
      extract_spent_amount s = 0) ∧
    extract_spent_amount pgJaned = 1000 ∧
    extract_spent_amount pgContA = 550 ∧
    extract_spent_amount pgContB = 225 ∧
    extract_spent_amount "A continuation page with no subtotal line" = 0 ∧
    extract_spent_amount "Subtotal: $1.00 then SUBTOTAL: $2.50" = 350 ∧
    (runPipeline [] "2026-10-12" [pgJaned, pgContA, pgContB, pgBobr]).upserts.map
        (fun e => (e.username, e.spent)) = [("janed", 1775), ("bobr", 999)] ∧
    (runPages [] "2026-10-12" initState 0 [pgJaned, pgContA, pgContB, pgBobr]).currentSpentTotal =
      extract_spent_amount pgBobr :=
  ⟨fun s h => spentScan_zero_of_no_subtotal s.data h, by decide⟩

/-- C4 (witness): the general zero case applied at a concrete text with
no subtotal token. -/
theorem C4_subtotal_accumulation_and_reset_witness :
    extract_spent_amount "Total: $9.99 but no sub-total token" = 0 :=
  C4_subtotal_accumulation_and_reset.1 "Total: $9.99 but no sub-total token" (by decide)

/-! ## Claim C8 — normalization lemmas -/

/-- Valid code points below the surrogate range round-trip through
`Char.ofNat`. -/
theorem charToNat_ofNat (n : Nat) (h : n < 55296) : (Char.ofNat n).toNat = n := by
  have hv : n.isValidChar := Or.inl h
  rw [Char.ofNat, dif_pos hv]
  simp [Char.ofNatAux, Char.toNat, UInt32.toNat]

/-- Lowering an uppercase ASCII letter adds 32 to its code point. -/
theorem pyCharLower_toNat (c : Char) (h1 : 65 ≤ c.toNat) (h2 : c.toNat ≤ 90) :
    (pyCharLower c).toNat = c.toNat + 32 := by
  rw [pyCharLower, if_pos (by simp [h1, h2])]
  exact charToNat_ofNat _ (by omega)

/-- `pyCharLower` is idempotent. -/
theorem pyCharLower_idem (c : Char) : pyCharLower (pyCharLower c) = pyCharLower c := by
  by_cases h : 65 ≤ c.toNat ∧ c.toNat ≤ 90
  · have ht := pyCharLower_toNat c h.1 h.2
    conv_lhs => rw [pyCharLower]
    rw [if_neg (by simp [ht]; omega)]
  · have hc : pyCharLower c = c := by
      rw [pyCharLower, if_neg (by simpa using fun a b => h ⟨a, b⟩)]
    rw [hc, hc]

/-- `pyCharLower` neither creates nor destroys whitespace. -/
theorem isPySpace_pyCharLower (c : Char) : isPySpace (pyCharLower c) = isPySpace c := by
  by_cases h : 65 ≤ c.toNat ∧ c.toNat ≤ 90
  · have ht := pyCharLower_toNat c h.1 h.2
    have hl : isPySpace (pyCharLower c) = false := by
      simp [isPySpace, ht]
      omega
    have hr : isPySpace c = false := by
      simp [isPySpace]
      omega
    rw [hl, hr]
  · have hc : pyCharLower c = c := by
      rw [pyCharLower, if_neg (by simpa using fun a b => h ⟨a, b⟩)]
    rw [hc]

/-- `lowerL` is idempotent. -/
theorem lowerL_idem (l : List Char) : lowerL (lowerL l) = lowerL l := by
  simp only [lowerL, List.map_map]
  exact List.map_congr_left fun c _ => pyCharLower_idem c

/-- `dropWhile` is idempotent. -/
theorem dropWhile_dropWhile (p : Char → Bool) (l : List Char) :
    (l.dropWhile p).dropWhile p = l.dropWhile p := by
  induction l with
  | nil => rfl
  | cons c t ih =>
    by_cases hc : p c
    · simpa [List.dropWhile_cons, hc] using ih
    · simp [List.dropWhile_cons, hc]

/-- `dropWhile` drops an initial segment. -/
theorem dropWhile_eq_drop (p : Char → Bool) (l : List Char) :
    ∃ k, l.dropWhile p = l.drop k := by
  induction l with
  | nil => exact ⟨0, rfl⟩
  | cons c t ih =>
    by_cases hc : p c
    · obtain ⟨k, hk⟩ := ih
      exact ⟨k + 1, by simpa [List.dropWhile_cons, hc] using hk⟩
    · exact ⟨0, by simp [List.dropWhile_cons, hc]⟩

/-- A prefix of a list already free of leading `p`-characters is itself
free of leading `p`-characters. -/
theorem dropWhile_take (p : Char → Bool) (l : List Char) (h : l.dropWhile p = l)
    (m : Nat) : (l.take m).dropWhile p = l.take m := by
  cases l with
  | nil => simp
  | cons c t =>
    cases m with
    | zero => simp
    | succ m =>
      have hc : p c = false := by
        by_contra hx
        have hx' : p c = true := by
          cases hpc : p c
          · exact absurd hpc hx
          · rfl
        rw [List.dropWhile_cons, if_pos hx'] at h
        have hlen := congrArg List.length h
        have hle : (t.dropWhile p).length ≤ t.length := by
          obtain ⟨k, hk⟩ := dropWhile_eq_drop p t
          rw [hk]
          simp
        rw [List.length_cons] at hlen
        omega
      simp [List.dropWhile_cons, hc]

/-- Stripping a stripped list changes nothing (left half). -/
theorem dropWhile_stripL (l : List Char) :
    (stripL l).dropWhile isPySpace = stripL l := by
  obtain ⟨k, hk⟩ := dropWhile_eq_drop isPySpace (l.dropWhile isPySpace).reverse
  have hs : stripL l = (l.dropWhile isPySpace).take ((l.dropWhile isPySpace).length - k) := by
    rw [stripL, hk, List.drop_reverse, List.reverse_reverse]
  rw [hs]
  exact dropWhile_take isPySpace _ (dropWhile_dropWhile isPySpace l) _

/-- `stripL` is idempotent. -/
theorem stripL_idem (l : List Char) : stripL (stripL l) = stripL l := by
  have h2 : (stripL l).reverse = ((l.dropWhile isPySpace).reverse).dropWhile isPySpace := by
    rw [stripL, List.reverse_reverse]
  show (((stripL l).dropWhile isPySpace).reverse.dropWhile isPySpace).reverse = stripL l
  rw [dropWhile_stripL, h2, dropWhile_dropWhile, ← h2, List.reverse_reverse]

/-- Stripping commutes with lowercasing. -/
theorem stripL_lowerL (l : List Char) : stripL (lowerL l) = lowerL (stripL l) := by
  have hfun : (isPySpace ∘ pyCharLower) = isPySpace := funext isPySpace_pyCharLower
  show ((((l.map pyCharLower).dropWhile isPySpace).reverse).dropWhile isPySpace).reverse =
    (stripL l).map pyCharLower
  rw [List.dropWhile_map, hfun, ← List.map_reverse, List.dropWhile_map, hfun, ← List.map_reverse]
  rfl

/-- The strip-then-lower normalization is idempotent. -/
theorem normalize_idem (s : List Char) :
    lowerL (stripL (lowerL (stripL s))) = lowerL (stripL s) := by
  rw [stripL_lowerL, stripL_idem, lowerL_idem]

/-- Every username produced by the identity-line scan is the
strip-then-lower image of some raw captured group. -/
theorem scanIdentityLines_username (ls : List (List Char)) (u : String) (f : Option String)
    (h : scanIdentityLines ls = (some u, f)) :
    ∃ raw, u = ⟨lowerL (stripL raw)⟩ := by
  induction ls with
  | nil =>
    rw [scanIdentityLines.eq_def] at h
    simp at h
  | cons l t ih =>
    rw [scanIdentityLines.eq_def] at h
    simp only [] at h
    split at h
    · exact ih h
    · split at h
      · split at h
        · rw [Prod.mk.injEq] at h
          exact ⟨_, (Option.some.injEq _ _ ▸ h.1).symm⟩
        · exact ih h
      · exact ih h

/-- Every username produced by the marker scan is the strip-then-lower
image of some raw captured group. -/
theorem scanMarker_username (ls : List (List Char)) (u : String) (f : Option String)
    (h : scanMarker ls = (some u, f)) :
    ∃ raw, u = ⟨lowerL (stripL raw)⟩ := by
  induction ls with
  | nil =>
    rw [scanMarker.eq_def] at h
    simp at h
  | cons l t ih =>
    rw [scanMarker.eq_def] at h
    simp only [] at h
    split at h
    · exact scanIdentityLines_username t u f h
    · exact ih h

/-- C8: every username returned by
`extract_username_and_pickup_firstname` is a fixed point of the
strip-then-lower normalization (so it is already trimmed and
lowercased); the `bin_map` is keyed through the same normalization of
the stored usernames, so a table keyed with `"coolbuyer99"` (or stored
unnormalized as `"  CoolBuyer99 "`) matches the identity extracted from
a marker line carrying `(  CoolBuyer99 )`. -/
theorem C8_username_normalization :
    (∀ s u f, extract_username_and_pickup_firstname s = (some u, f) →
      normalizeUser u = u) ∧
    binMapOf [("  CoolBuyer99 ", 7)] = [("coolbuyer99", 7)] ∧
    (extract_username_and_pickup_firstname "pickup to:\nJane Doe (  CoolBuyer99 )").1 =
      some "coolbuyer99" ∧
    dictGet (binMapOf [("coolbuyer99", 7)])
      ((extract_username_and_pickup_firstname "pickup to:\nJane Doe (  CoolBuyer99 )").1.getD "") =
      some 7 := by
  refine ⟨?_, by decide, by decide, by decide⟩
  intro s u f h
  obtain ⟨raw, hraw⟩ :=
    scanMarker_username (splitlinesL s.data) u f h
  subst hraw
  show (⟨lowerL (stripL (lowerL (stripL raw)))⟩ : String) = _
  rw [normalize_idem]

/-- C8 (witness): the normalization theorem applied to the concrete
pickup page. -/
theorem C8_username_normalization_witness :
    normalizeUser "coolbuyer99" = "coolbuyer99" :=
  C8_username_normalization.1 "pickup to:\nJane Doe (  CoolBuyer99 )" "coolbuyer99"
    (some "Jane Doe") (by decide)

/-! ## Structural lemmas about the page state machine -/

/-- The flush block touches neither the written pages nor the skip list
nor the buyer/first-name/address state. -/
theorem flushStep_frame (today : String) (idx : Nat) (st : RunState) :
    (flushStep today idx st).outputPages = st.outputPages ∧
    (flushStep today idx st).skippedPages = st.skippedPages ∧
    (flushStep today idx st).currentBuyer = st.currentBuyer ∧
    (flushStep today idx st).currentFirstName = st.currentFirstName ∧
    (flushStep today idx st).currentAddressData = st.currentAddressData := by
  unfold flushStep
  split
  · split
    · split <;> simp
    · simp
  · simp

/-- The flush block either leaves the upsert log and flushed set alone,
or performs exactly one upsert, for the current buyer, guarded by that
buyer not having been flushed yet, recording the buyer in the set. -/
theorem flushStep_upserts (today : String) (idx : Nat) (st : RunState) :
    ((flushStep today idx st).upserts = st.upserts ∧
     (flushStep today idx st).savedUsernames = st.savedUsernames) ∨
    (∃ a b, st.currentBuyer = some b ∧ st.currentAddressData = some a ∧
      st.savedUsernames.contains b = false ∧
      (flushStep today idx st).upserts =
        st.upserts ++ [mkEntry a st.currentSpentTotal today (pgTag idx)] ∧
      (flushStep today idx st).savedUsernames = st.savedUsernames ++ [b]) := by
  unfold flushStep
  split
  case h_1 buyer addr heq1 heq2 =>
    split
    · split
      case isTrue h => exact Or.inl ⟨by simp, by simp⟩
      case isFalse h =>
        refine Or.inr ⟨addr, buyer, heq1, heq2, ?_, by simp, by simp⟩
        cases hc : st.savedUsernames.contains buyer
        · rfl
        · exact absurd (by simpa using hc) h
    · exact Or.inl ⟨rfl, rfl⟩
  case h_2 => exact Or.inl ⟨rfl, rfl⟩

/-- Field behaviour of the skip path: one skip record, one unannotated
page, everything else untouched. -/
theorem skipPage_fields (r : String) (idx : Nat) (st1 : RunState) :
    (skipPage r idx st1).outputPages = st1.outputPages ++ [{ idx := idx, overlay := none }] ∧
    (skipPage r idx st1).skippedPages = st1.skippedPages ++ [(idx, r)] ∧
    (skipPage r idx st1).currentBuyer = st1.currentBuyer ∧
    (skipPage r idx st1).currentFirstName = st1.currentFirstName ∧
    (skipPage r idx st1).currentAddressData = st1.currentAddressData ∧
    (skipPage r idx st1).currentSpentTotal = st1.currentSpentTotal ∧
    (skipPage r idx st1).savedUsernames = st1.savedUsernames ∧
    (skipPage r idx st1).upserts = st1.upserts :=
  ⟨rfl, rfl, rfl, rfl, rfl, rfl, rfl, rfl⟩

/-- Field behaviour of the new-buyer path: one annotated page, at most
one skip record, the pending state replaced by the new buyer (the
address dict's `username` being the new buyer), the running total seeded
with this page's amount, and the upsert log and flushed set
untouched. -/
theorem newBuyerStep_fields (bm : List (String × Int)) (idx : Nat) (txt : String)
    (spent : Nat) (er : Option String × Option String) (ad : AddressData)
    (st1 : RunState) :
    (∃ ov, (newBuyerStep bm idx txt spent er ad st1).outputPages =
      st1.outputPages ++ [{ idx := idx, overlay := some ov }]) ∧
    (∃ sk, (newBuyerStep bm idx txt spent er ad st1).skippedPages =
      st1.skippedPages ++ sk ∧ sk.length ≤ 1) ∧
    (newBuyerStep bm idx txt spent er ad st1).currentBuyer =
      some ⟨lowerL ((er.1.getD "").data)⟩ ∧
    (newBuyerStep bm idx txt spent er ad st1).currentFirstName = er.2 ∧
    (newBuyerStep bm idx txt spent er ad st1).currentAddressData =
      some { full_name := ad.full_name, username := ⟨lowerL ((er.1.getD "").data)⟩,
             email := "", address_line_1 := ad.address_line_1,
             address_line_2 := if isPickupTxt txt then "PICK UP" else ad.address_line_2,
             city := ad.city, state := ad.state, zip_code := ad.zip_code } ∧
    (newBuyerStep bm idx txt spent er ad st1).currentSpentTotal = spent ∧
    (newBuyerStep bm idx txt spent er ad st1).savedUsernames = st1.savedUsernames ∧
    (newBuyerStep bm idx txt spent er ad st1).upserts = st1.upserts := by
  unfold newBuyerStep
  cases hdg : dictGet bm (⟨lowerL ((er.1.getD "").data)⟩ : String) with
  | none =>
    simp only [hdg]
    exact ⟨⟨.fallback, by simp⟩, ⟨[(idx, if strTruthy (⟨lowerL ((er.1.getD "").data)⟩ : String) then
          (⟨lowerL ((er.1.getD "").data)⟩ : String) else "unknown")], by simp, by simp⟩,
      by simp, by simp, by simp, by simp, by simp, by simp⟩
  | some b =>
    simp only [hdg]
    split
    · exact ⟨⟨.binStamp b (if isPickupTxt txt && optStrTruthy er.2 then er.2 else none),
        by simp⟩, ⟨[], by simp, by simp⟩,
        by simp, by simp, by simp, by simp, by simp, by simp⟩
    · exact ⟨⟨.fallback, by simp⟩, ⟨[(idx, if strTruthy (⟨lowerL ((er.1.getD "").data)⟩ : String) then
          (⟨lowerL ((er.1.getD "").data)⟩ : String) else "unknown")], by simp, by simp⟩,
        by simp, by simp, by simp, by simp, by simp, by simp⟩

/-- Field behaviour of the continuation path: one unannotated page, the
running total increased by this page's amount when a buyer is pending,
everything else untouched. -/
theorem contStep_fields (spent : Nat) (idx : Nat) (st : RunState) :
    (contStep spent idx st).outputPages =
      st.outputPages ++ [{ idx := idx, overlay := none }] ∧
    (contStep spent idx st).skippedPages = st.skippedPages ∧
    (contStep spent idx st).currentBuyer = st.currentBuyer ∧
    (contStep spent idx st).currentFirstName = st.currentFirstName ∧
    (contStep spent idx st).currentAddressData = st.currentAddressData ∧
    (contStep spent idx st).currentSpentTotal =
      (if optStrTruthy st.currentBuyer then st.currentSpentTotal + spent
       else st.currentSpentTotal) ∧
    (contStep spent idx st).savedUsernames = st.savedUsernames ∧
    (contStep spent idx st).upserts = st.upserts := by
  unfold contStep
  split <;>
    exact ⟨by simp, by simp, by simp, by simp, by simp, by simp, by simp, by simp⟩

/-- Processing one page writes exactly one page, whose index is the
page's own and whose overlay presence is `pageGetsOverlay` of this
page's text alone. -/
theorem processPage_outputPages (bm : List (String × Int)) (td : String)
    (st : RunState) (idx : Nat) (txt : String) :
    ∃ ov, (processPage bm td st idx txt).outputPages =
        st.outputPages ++ [{ idx := idx, overlay := ov }] ∧
      ov.isSome = pageGetsOverlay txt := by
  have hof := (flushStep_frame td idx st).1
  simp only [processPage]
  split
  case isTrue hlab =>
    split
    all_goals try split
    all_goals first
      | exact ⟨none, ((skipPage_fields _ idx _).1).trans (by rw [hof]),
          by simp_all [pageGetsOverlay]⟩
      | (obtain ⟨ov, hov⟩ := (newBuyerStep_fields bm idx txt _ _ _ _).1
         exact ⟨some ov, hov.trans (by rw [hof]),
           by simp_all [pageGetsOverlay]⟩)
  case isFalse hlab =>
    exact ⟨none, (contStep_fields _ idx st).1, by simp_all [pageGetsOverlay]⟩

/-- Processing one page appends at most one skip record, and only on a
boundary page. -/
theorem processPage_skippedPages (bm : List (String × Int)) (td : String)
    (st : RunState) (idx : Nat) (txt : String) :
    ∃ sk, (processPage bm td st idx txt).skippedPages = st.skippedPages ++ sk ∧
      sk.length ≤ (if isNewLabelTxt txt then 1 else 0) := by
  have hsf := (flushStep_frame td idx st).2.1
  simp only [processPage]
  split
  case isTrue hlab =>
    split
    all_goals try split
    all_goals first
      | exact ⟨_, ((skipPage_fields _ idx _).2.1).trans (by rw [hsf]), by simp⟩
      | (obtain ⟨sk, hsk, hl⟩ := (newBuyerStep_fields bm idx txt _ _ _ _).2.1
         exact ⟨sk, hsk.trans (by rw [hsf]), by simpa using hl⟩)
  case isFalse hlab =>
    exact ⟨[], ((contStep_fields _ idx st).2.1).trans (by simp), by simp⟩

/-- Processing one page either leaves the upsert log and the flushed
set unchanged, or performs exactly one upsert — of the pending entry,
for the pending buyer, guarded by that buyer not being flushed yet —
and records the buyer in the set. -/
theorem processPage_upserts (bm : List (String × Int)) (td : String)
    (st : RunState) (idx : Nat) (txt : String) :
    ((processPage bm td st idx txt).upserts = st.upserts ∧
     (processPage bm td st idx txt).savedUsernames = st.savedUsernames) ∨
    (∃ a b, st.currentBuyer = some b ∧ st.currentAddressData = some a ∧
      st.savedUsernames.contains b = false ∧
      (processPage bm td st idx txt).upserts =
        st.upserts ++ [mkEntry a st.currentSpentTotal td (pgTag idx)] ∧
      (processPage bm td st idx txt).savedUsernames = st.savedUsernames ++ [b]) := by
  have hfu := flushStep_upserts td idx st
  have key : ∀ r : RunState,
      r.upserts = (flushStep td idx st).upserts →
      r.savedUsernames = (flushStep td idx st).savedUsernames →
      (r.upserts = st.upserts ∧ r.savedUsernames = st.savedUsernames) ∨
      (∃ a b, st.currentBuyer = some b ∧ st.currentAddressData = some a ∧
        st.savedUsernames.contains b = false ∧
        r.upserts = st.upserts ++ [mkEntry a st.currentSpentTotal td (pgTag idx)] ∧
        r.savedUsernames = st.savedUsernames ++ [b]) := by
    intro r h1 h2
    rcases hfu with ⟨hu, hs⟩ | ⟨a, b, hb, ha, hc, hu, hs⟩
    · exact Or.inl ⟨h1.trans hu, h2.trans hs⟩
    · exact Or.inr ⟨a, b, hb, ha, hc, h1.trans hu, h2.trans hs⟩
  simp only [processPage]
  split
  case isTrue hlab =>
    split
    all_goals try split
    all_goals first
      | exact key _ (skipPage_fields _ idx _).2.2.2.2.2.2.2
          (skipPage_fields _ idx _).2.2.2.2.2.2.1
      | exact key _ (newBuyerStep_fields bm idx txt _ _ _ _).2.2.2.2.2.2.2
          (newBuyerStep_fields bm idx txt _ _ _ _).2.2.2.2.2.2.1
  case isFalse hlab =>
    exact Or.inl ⟨(contStep_fields _ idx st).2.2.2.2.2.2.2,
      (contStep_fields _ idx st).2.2.2.2.2.2.1⟩

/-- The buyer/address coupling: whenever an address dict is pending,
its `username` field is exactly the current buyer. -/
def couplingInv (st : RunState) : Prop :=
  ∀ a, st.currentAddressData = some a → st.currentBuyer = some a.username

/-- Processing a page either leaves the pending buyer and address alone
or replaces them together, the address dict's `username` field being
exactly the new buyer. -/
theorem processPage_buyer_addr (bm : List (String × Int)) (td : String)
    (st : RunState) (idx : Nat) (txt : String) :
    ((processPage bm td st idx txt).currentBuyer = st.currentBuyer ∧
     (processPage bm td st idx txt).currentAddressData = st.currentAddressData) ∨
    (∃ cb cad, (processPage bm td st idx txt).currentBuyer = some cb ∧
      (processPage bm td st idx txt).currentAddressData = some cad ∧
      cad.username = cb) := by
  have hff := flushStep_frame td idx st
  simp only [processPage]
  split
  case isTrue hlab =>
    split
    all_goals try split
    all_goals first
      | exact Or.inl ⟨((skipPage_fields _ idx _).2.2.1).trans hff.2.2.1,
          ((skipPage_fields _ idx _).2.2.2.2.1).trans hff.2.2.2.2⟩
      | exact Or.inr ⟨_, _, (newBuyerStep_fields bm idx txt _ _ _ _).2.2.1,
          (newBuyerStep_fields bm idx txt _ _ _ _).2.2.2.2.1, rfl⟩
  case isFalse hlab =>
    exact Or.inl ⟨(contStep_fields _ idx st).2.2.1,
      (contStep_fields _ idx st).2.2.2.2.1⟩

/-- Processing a page preserves the buyer/address coupling. -/
theorem processPage_coupling (bm : List (String × Int)) (td : String)
    (st : RunState) (idx : Nat) (txt : String) (h : couplingInv st) :
    couplingInv (processPage bm td st idx txt) := by
  rcases processPage_buyer_addr bm td st idx txt with ⟨h1, h2⟩ | ⟨cb, cad, h1, h2, h3⟩
  · intro a ha
    rw [h2] at ha
    rw [h1]
    exact h a ha
  · intro a ha
    rw [h2] at ha
    injection ha with ha
    subst ha
    rw [h1, h3]

/-- The end-of-document flush touches only the upsert log. -/
theorem eofFlush_frame (td : String) (n : Nat) (st : RunState) :
    (eofFlush td n st).outputPages = st.outputPages ∧
    (eofFlush td n st).skippedPages = st.skippedPages ∧
    (eofFlush td n st).currentBuyer = st.currentBuyer ∧
    (eofFlush td n st).currentAddressData = st.currentAddressData ∧
    (eofFlush td n st).savedUsernames = st.savedUsernames := by
  unfold eofFlush
  split
  · split
    · exact ⟨by simp, by simp, by simp, by simp, by simp⟩
    · exact ⟨rfl, rfl, rfl, rfl, rfl⟩
  · exact ⟨rfl, rfl, rfl, rfl, rfl⟩

/-- The end-of-document flush upserts at most once, for the pending
buyer, guarded by that buyer not having been flushed yet. -/
theorem eofFlush_upserts (td : String) (n : Nat) (st : RunState) :
    (eofFlush td n st).upserts = st.upserts ∨
    (∃ a b, st.currentBuyer = some b ∧ st.currentAddressData = some a ∧
      st.savedUsernames.contains b = false ∧
      (eofFlush td n st).upserts =
        st.upserts ++ [mkEntry a st.currentSpentTotal td (pgTag n)]) := by
  unfold eofFlush
  split
  case h_1 buyer addr h1 h2 =>
    split
    case isTrue h =>
      refine Or.inr ⟨addr, buyer, h1, h2, ?_, by simp⟩
      have h2' := (Bool.and_eq_true _ _).mp h |>.2
      revert h2'
      cases st.savedUsernames.contains buyer <;> simp
    case isFalse h => exact Or.inl rfl
  case h_2 => exact Or.inl rfl

/-- Running the loop from any state writes the pages in order, one
output page per input page, the overlay presence of each output page
being `pageGetsOverlay` of the corresponding input page; the skip list
grows by at most the number of boundary pages. -/
theorem runPages_output (bm : List (String × Int)) (td : String) :
    ∀ (pages : List String) (st : RunState) (idx : Nat),
    (runPages bm td st idx pages).outputPages.map OutPage.idx =
      st.outputPages.map OutPage.idx ++ List.range' idx pages.length ∧
    (runPages bm td st idx pages).outputPages.map (fun p => p.overlay.isSome) =
      st.outputPages.map (fun p => p.overlay.isSome) ++ pages.map pageGetsOverlay ∧
    (runPages bm td st idx pages).skippedPages.length ≤
      st.skippedPages.length + pages.countP isNewLabelTxt := by
  intro pages
  induction pages with
  | nil =>
    intro st idx
    simp [runPages]
  | cons p ps ih =>
    intro st idx
    obtain ⟨ov, hov, hovs⟩ := processPage_outputPages bm td st idx p
    obtain ⟨sk, hsk, hlen⟩ := processPage_skippedPages bm td st idx p
    obtain ⟨ih1, ih2, ih3⟩ := ih (processPage bm td st idx p) (idx + 1)
    have hstep : runPages bm td st idx (p :: ps) =
        runPages bm td (processPage bm td st idx p) (idx + 1) ps := rfl
    have hrange : List.range' idx ((p :: ps).length) =
        idx :: List.range' (idx + 1) ps.length := rfl
    refine ⟨?_, ?_, ?_⟩
    · rw [hstep, ih1, hov, hrange]
      simp
    · rw [hstep, ih2, hov]
      simp [hovs]
    · rw [hstep]
      have hc : List.countP isNewLabelTxt (p :: ps) =
          List.countP isNewLabelTxt ps + (if isNewLabelTxt p then 1 else 0) := by
        rw [List.countP_cons]
      have hlen' : (processPage bm td st idx p).skippedPages.length ≤
          st.skippedPages.length + (if isNewLabelTxt p then 1 else 0) := by
        rw [hsk, List.length_append]
        omega
      omega

/-! ## Claim C6 — page conservation and skip accounting -/

/-- C6: for every input, the output document has exactly one page per
input page, in input order (the written page indices are
`0, 1, …, n-1`), and the number of skip records is at most the number
of boundary pages. -/
theorem C6_page_conservation (bm : List (String × Int)) (td : String)
    (pages : List String) :
    (runPipeline bm td pages).outputPages.map OutPage.idx = List.range pages.length ∧
    (runPipeline bm td pages).outputPages.length = pages.length ∧
    (runPipeline bm td pages).skippedPages.length ≤ pages.countP isNewLabelTxt := by
  obtain ⟨h1, _, h3⟩ := runPages_output bm td pages initState 0
  have hf := eofFlush_frame td pages.length (runPages bm td initState 0 pages)
  have e1 : (runPipeline bm td pages).outputPages.map OutPage.idx =
      List.range pages.length := by
    rw [runPipeline, hf.1, h1]
    simp [initState, List.range_eq_range']
  refine ⟨e1, ?_, ?_⟩
  · have := congrArg List.length e1
    simpa using this
  · rw [runPipeline, hf.2.1]
    simpa [initState] using h3

/-! ## Claim C2 — which pages carry an overlay -/

/-- C2 (counterexample): the claim says every output page carries a
visible overlay stamp. On a document consisting of a valid boundary
page followed by a continuation page, the continuation page is written
with no overlay at all (`draw_overlay = is_new_label` is false there),
so the second output page carries nothing. -/
theorem C2_counterexample :
    (runPipeline (binMapOf [("janed", 5)]) "2026-10-12" [pgJaned, pgContA]).outputPages.map
      (fun p => p.overlay) = [some (.binStamp 5 none), none] ∧
    ¬ (∀ p ∈ (runPipeline (binMapOf [("janed", 5)]) "2026-10-12"
        [pgJaned, pgContA]).outputPages, p.overlay.isSome = true) := by
  decide

/-- C2 (amended): the page annotator runs exactly on the boundary pages
whose identity and address both parse: such pages get an overlay (bin
stamp or giveaway fallback), while continuation pages and boundary
pages skipped for `no_username`/`no_address_data` are written without
any overlay. -/
theorem C2_overlay_on_parsed_boundaries_only (bm : List (String × Int))
    (td : String) (pages : List String) :
    (runPipeline bm td pages).outputPages.map (fun p => p.overlay.isSome) =
      pages.map pageGetsOverlay := by
  obtain ⟨_, h2, _⟩ := runPages_output bm td pages initState 0
  have hf := eofFlush_frame td pages.length (runPages bm td initState 0 pages)
  rw [runPipeline, hf.1, h2]
  simp [initState]

/-! ## Claim C5 — at most one upsert per buyer per run -/

/-- The at-most-once invariant: every username occurs at most once in
the upsert log, and a username that has been upserted is in the flushed
set. -/
def atMostOnce (st : RunState) : Prop :=
  ∀ u : String, st.upserts.countP (fun e => e.username == u) ≤ 1 ∧
    (1 ≤ st.upserts.countP (fun e => e.username == u) →
      st.savedUsernames.contains u = true)

/-- Appending one guarded upsert preserves the at-most-once invariant.
`hcnt`/`hsv` describe the new upsert log and flushed set, `hba` ties the
upserted entry's username to the guarded buyer. -/
theorem atMostOnce_append (st : RunState) (ups : List MailingEntry)
    (sv : List String) (e : MailingEntry) (b : String)
    (h : atMostOnce st)
    (hba : e.username = b)
    (hcon : st.savedUsernames.contains b = false)
    (hcnt : ups = st.upserts ++ [e])
    (hsv : sv = st.savedUsernames ++ [b]) :
    ∀ u : String, ups.countP (fun x => x.username == u) ≤ 1 ∧
      (1 ≤ ups.countP (fun x => x.username == u) → sv.contains u = true) := by
  intro u
  have hcApp : List.countP (fun x => x.username == u) (st.upserts ++ [e]) =
      List.countP (fun x => x.username == u) st.upserts +
      (if e.username == u then 1 else 0) := by
    rw [List.countP_append]
    simp [List.countP_cons]
  by_cases hub : u = b
  · subst hub
    have hzero : List.countP (fun x => x.username == u) st.upserts = 0 := by
      by_contra hnz
      have h1 : 1 ≤ List.countP (fun x => x.username == u) st.upserts := by omega
      have := (h u).2 h1
      rw [this] at hcon
      exact absurd hcon (by simp)
    rw [hcnt, hsv, hcApp, hzero]
    constructor
    · split <;> omega
    · intro _
      simp
  · have hne : (e.username == u) = false := by
      rw [hba]
      exact beq_false_of_ne fun hx => hub hx.symm
    rw [hcnt, hsv, hcApp, hne]
    simp only [Bool.false_eq_true, if_false]
    constructor
    · have := (h u).1
      omega
    · intro h1
      have hmem := (h u).2 (by omega)
      have hm : u ∈ st.savedUsernames := by simpa using hmem
      simp [hm]

/-- Processing a page preserves the at-most-once invariant (given the
buyer/address coupling, which ties the upserted entry's username to the
guarded buyer). -/
theorem processPage_atMostOnce (bm : List (String × Int)) (td : String)
    (st : RunState) (idx : Nat) (txt : String)
    (hc : couplingInv st) (h : atMostOnce st) :
    atMostOnce (processPage bm td st idx txt) := by
  rcases processPage_upserts bm td st idx txt with ⟨hu, hs⟩ | ⟨a, b, hb, ha, hcon, hu, hs⟩
  · intro u
    rw [hu, hs]
    exact h u
  · have hba : (mkEntry a st.currentSpentTotal td (pgTag idx)).username = b := by
      have := hc a ha
      rw [hb] at this
      injection this with this
      rw [mkEntry, ← this]
    exact atMostOnce_append st _ _ _ b h hba hcon hu hs

/-- The loop preserves coupling and at-most-once from any start
state. -/
theorem runPages_atMostOnce (bm : List (String × Int)) (td : String) :
    ∀ (pages : List String) (st : RunState) (idx : Nat),
    couplingInv st → atMostOnce st →
    couplingInv (runPages bm td st idx pages) ∧
    atMostOnce (runPages bm td st idx pages) := by
  intro pages
  induction pages with
  | nil => exact fun st idx hc h => ⟨hc, h⟩
  | cons p ps ih =>
    intro st idx hc h
    exact ih (processPage bm td st idx p) (idx + 1)
      (processPage_coupling bm td st idx p hc)
      (processPage_atMostOnce bm td st idx p hc h)

/-- C5: over a whole run — the page loop followed by the
end-of-document flush — `add_or_update_entry` is called at most once
per buyer username; and on the concrete document where `janed` appears
as a boundary exactly once and is mid-flushed when the malformed second
boundary page arrives, the end-of-document flush does not produce a
second call: the upsert log holds exactly one entry for `janed`. -/
theorem C5_at_most_one_upsert_per_buyer :
    (∀ (bm : List (String × Int)) (td : String) (pages : List String) (u : String),
      (runPipeline bm td pages).upserts.countP (fun e => e.username == u) ≤ 1) ∧
    (runPipeline (binMapOf [("janed", 5)]) "2026-10-12" [pgJaned, pgNoUser]).upserts.map
      (fun e => e.username) = ["janed"] := by
  refine ⟨?_, by decide⟩
  intro bm td pages u
  have hinit : couplingInv initState := by
    intro a ha
    simp [initState] at ha
  have hinit2 : atMostOnce initState := by
    intro u
    simp [initState]
  obtain ⟨hc, hmo⟩ := runPages_atMostOnce bm td pages initState 0 hinit hinit2
  set fin := runPages bm td initState 0 pages with hfin
  rcases eofFlush_upserts td pages.length fin with heq | ⟨a, b, hb, ha, hcon, heq⟩
  · rw [runPipeline, ← hfin, heq]
    exact (hmo u).1
  · have hba : (mkEntry a fin.currentSpentTotal td (pgTag pages.length)).username = b := by
      have := hc a ha
      rw [hb] at this
      injection this with this
      rw [mkEntry, ← this]
    rw [runPipeline, ← hfin]
    exact (atMostOnce_append fin _ (fin.savedUsernames ++ [b]) _ b hmo hba hcon heq rfl u).1

/-! ## Claim C9 — pickup orders overwrite address line 2 -/

/-- C9: on a boundary page whose identity and address both parse, the
pending address dict the pipeline installs (from which the mailing
entry is later built field-for-field) carries `address_line_2 =
"PICK UP"` exactly when the page is a pickup page — discarding whatever
suite/unit line the address parser extracted — and the parsed
`address_line_2` otherwise; `mkEntry` copies that field into the
flushed entry unchanged. -/
theorem C9_pickup_overwrites_address_line_2 (bm : List (String × Int))
    (td : String) (st : RunState) (idx : Nat) (txt : String) (ad : AddressData)
    (hlab : isNewLabelTxt txt = true)
    (hu : optStrTruthy (extract_username_and_pickup_firstname txt).1 = true)
    (hparse : parse_packing_slip_address txt = some ad) :
    (∃ cad, (processPage bm td st idx txt).currentAddressData = some cad ∧
      cad.address_line_2 = (if isPickupTxt txt then "PICK UP" else ad.address_line_2) ∧
      cad.full_name = ad.full_name ∧ cad.address_line_1 = ad.address_line_1 ∧
      cad.city = ad.city ∧ cad.state = ad.state ∧ cad.zip_code = ad.zip_code) ∧
    (∀ (a : CurAddr) (sp : Nat) (tag : String),
      (mkEntry a sp td tag).address_line_2 = a.address_line_2) := by
  refine ⟨?_, fun a sp tag => rfl⟩
  simp only [processPage]
  rw [if_pos hlab, if_neg (by simp [hu]), hparse]
  refine ⟨_, (newBuyerStep_fields bm idx txt _ _ ad _).2.2.2.2.1, by simp, by simp,
    by simp, by simp, by simp, by simp⟩

/-- C9 (witness): on the concrete pickup page whose parsed address
carries the suite line `Ste 4`, the installed address dict holds
`PICK UP` instead. -/
theorem C9_pickup_overwrites_address_line_2_witness :
    ∃ cad, (processPage [] "2026-10-12" initState 0 pgPickup).currentAddressData =
        some cad ∧
      cad.address_line_2 = (if isPickupTxt pgPickup then "PICK UP"
        else (AddressData.mk "Jane Doe" "janed" "123 Main St" "Ste 4" "Springfield"
          "IL" "62704" "US").address_line_2) := by
  obtain ⟨⟨cad, h1, h2, _⟩, _⟩ :=
    C9_pickup_overwrites_address_line_2 [] "2026-10-12" initState 0 pgPickup
      (AddressData.mk "Jane Doe" "janed" "123 Main St" "Ste 4" "Springfield"
        "IL" "62704" "US")
      (by decide) (by decide) (by decide)
  exact ⟨cad, h1, h2⟩

/-! ## Claim C10 — skipped boundaries leave stale state; stale amounts never persist -/

/-- After the flush block, a truthy pending buyer with a pending
address is in the flushed set. -/
theorem flushStep_saved_contains (td : String) (idx : Nat) (st : RunState)
    (b : String) (hb : st.currentBuyer = some b) (ht : strTruthy b = true)
    (ha : st.currentAddressData.isSome = true) :
    (flushStep td idx st).savedUsernames.contains b = true := by
  obtain ⟨a, ha'⟩ := Option.isSome_iff_exists.mp ha
  unfold flushStep
  rw [hb, ha']
  simp only [ht, if_true]
  split
  case isTrue h => simpa using h
  case isFalse h => simp

/-- A boundary page skipped for `no_username` or `no_address_data`
leaves the pending buyer, first name and address untouched, and (having
just run the flush block) leaves a truthy pending buyer with a pending
address in the flushed set. -/
theorem processPage_skip_frame (bm : List (String × Int)) (td : String)
    (st : RunState) (idx : Nat) (txt : String)
    (hlab : isNewLabelTxt txt = true)
    (hskip : optStrTruthy (extract_username_and_pickup_firstname txt).1 = false ∨
      parse_packing_slip_address txt = none) :
    (processPage bm td st idx txt).currentBuyer = st.currentBuyer ∧
    (processPage bm td st idx txt).currentFirstName = st.currentFirstName ∧
    (processPage bm td st idx txt).currentAddressData = st.currentAddressData ∧
    (∀ b, st.currentBuyer = some b → strTruthy b = true →
      st.currentAddressData.isSome = true →
      (processPage bm td st idx txt).savedUsernames.contains b = true) := by
  have hff := flushStep_frame td idx st
  have key : ∀ r : String,
      (skipPage r idx (flushStep td idx st)).currentBuyer = st.currentBuyer ∧
      (skipPage r idx (flushStep td idx st)).currentFirstName = st.currentFirstName ∧
      (skipPage r idx (flushStep td idx st)).currentAddressData = st.currentAddressData ∧
      (∀ b, st.currentBuyer = some b → strTruthy b = true →
        st.currentAddressData.isSome = true →
        (skipPage r idx (flushStep td idx st)).savedUsernames.contains b = true) := by
    intro r
    refine ⟨((skipPage_fields r idx _).2.2.1).trans hff.2.2.1,
      ((skipPage_fields r idx _).2.2.2.1).trans hff.2.2.2.1,
      ((skipPage_fields r idx _).2.2.2.2.1).trans hff.2.2.2.2,
      fun b hb ht ha => ?_⟩
    rw [(skipPage_fields r idx _).2.2.2.2.2.2.1]
    exact flushStep_saved_contains td idx st b hb ht ha
  simp only [processPage]
  rw [if_pos hlab]
  by_cases husr : optStrTruthy (extract_username_and_pickup_firstname txt).1 = false
  · rw [if_pos (by simp [husr])]
    exact key "no_username"
  · have hparse : parse_packing_slip_address txt = none := by
      rcases hskip with h | h
      · exact absurd h husr
      · exact h
    rw [if_neg (by simpa using husr), hparse]
    exact key "no_address_data"

/-- On a continuation page with a truthy pending buyer, the page's
amount is added to the running total and the pending state is
otherwise untouched. -/
theorem processPage_continuation (bm : List (String × Int)) (td : String)
    (st : RunState) (idx : Nat) (txt : String)
    (hlab : isNewLabelTxt txt = false)
    (hbuyer : optStrTruthy st.currentBuyer = true) :
    (processPage bm td st idx txt).currentSpentTotal =
      st.currentSpentTotal + extract_spent_amount txt ∧
    (processPage bm td st idx txt).currentBuyer = st.currentBuyer ∧
    (processPage bm td st idx txt).currentAddressData = st.currentAddressData ∧
    (processPage bm td st idx txt).upserts = st.upserts := by
  simp only [processPage]
  rw [if_neg (by simp [hlab])]
  refine ⟨((contStep_fields _ idx st).2.2.2.2.2.1).trans (by rw [if_pos hbuyer]),
    (contStep_fields _ idx st).2.2.1, (contStep_fields _ idx st).2.2.2.2.1,
    (contStep_fields _ idx st).2.2.2.2.2.2.2⟩

/-- Once a buyer is in the flushed set, no later step of the run — page
loop or end-of-document flush — ever upserts an entry for that buyer
again: every upsert in the final log is either one that was already
there or carries a different username. -/
theorem runPages_no_upsert_for_saved (bm : List (String × Int)) (td : String)
    (b : String) :
    ∀ (pages : List String) (st : RunState) (idx : Nat) (n : Nat),
    couplingInv st → st.savedUsernames.contains b = true →
    ∀ e ∈ (eofFlush td n (runPages bm td st idx pages)).upserts,
      e ∈ st.upserts ∨ ¬ e.username = b := by
  intro pages
  induction pages with
  | nil =>
    intro st idx n hc hsv e he
    have hnil : runPages bm td st idx [] = st := rfl
    rw [hnil] at he
    rcases eofFlush_upserts td n st with heq | ⟨a, bb, hb, ha, hcon, heq⟩
    · rw [heq] at he
      exact Or.inl he
    · rw [heq] at he
      rcases List.mem_append.mp he with h | h
      · exact Or.inl h
      · right
        have hbb : bb ≠ b := by
          intro hx
          subst hx
          rw [hsv] at hcon
          cases hcon
        have hba : (mkEntry a st.currentSpentTotal td (pgTag n)).username = bb := by
          have := hc a ha
          rw [hb] at this
          injection this with this
          rw [mkEntry, ← this]
        have : e = mkEntry a st.currentSpentTotal td (pgTag n) := by
          simpa using h
        rw [this, hba]
        exact hbb
  | cons p ps ih =>
    intro st idx n hc hsv e he
    have hc' := processPage_coupling bm td st idx p hc
    rcases processPage_upserts bm td st idx p with ⟨hu, hs⟩ | ⟨a, bb, hb, ha, hcon, hu, hs⟩
    · have hsv' : (processPage bm td st idx p).savedUsernames.contains b = true := by
        rw [hs]
        exact hsv
      rcases ih (processPage bm td st idx p) (idx + 1) n hc' hsv' e he with h | h
      · rw [hu] at h
        exact Or.inl h
      · exact Or.inr h
    · have hsv' : (processPage bm td st idx p).savedUsernames.contains b = true := by
        rw [hs]
        have hm : b ∈ st.savedUsernames := by simpa using hsv
        simp [hm]
      rcases ih (processPage bm td st idx p) (idx + 1) n hc' hsv' e he with h | h
      · rw [hu] at h
        rcases List.mem_append.mp h with h2 | h2
        · exact Or.inl h2
        · right
          have hbb : bb ≠ b := by
            intro hx
            subst hx
            rw [hsv] at hcon
            cases hcon
          have hba : (mkEntry a st.currentSpentTotal td (pgTag idx)).username = bb := by
            have := hc a ha
            rw [hb] at this
            injection this with this
            rw [mkEntry, ← this]
          have : e = mkEntry a st.currentSpentTotal td (pgTag idx) := by
            simpa using h2
          rw [this, hba]
          exact hbb
      · exact Or.inr h

/-- C10: a boundary page skipped for `no_username`/`no_address_data`
leaves `current_buyer`, `current_first_name` and `current_address_data`
unchanged (still describing the previous buyer), and — the flush block
having just run — that stale buyer is in the flushed set; subsequent
continuation pages add their subtotal amounts to the stale buyer's
running total; and because the buyer is in the flushed set, no later
upsert of the run ever carries that buyer's username, so the
accumulated amounts are never persisted. -/
theorem C10_stale_buyer_amounts_never_persisted :
    (∀ (bm : List (String × Int)) (td : String) (st : RunState) (idx : Nat)
       (txt : String),
      isNewLabelTxt txt = true →
      (optStrTruthy (extract_username_and_pickup_firstname txt).1 = false ∨
        parse_packing_slip_address txt = none) →
      (processPage bm td st idx txt).currentBuyer = st.currentBuyer ∧
      (processPage bm td st idx txt).currentFirstName = st.currentFirstName ∧
      (processPage bm td st idx txt).currentAddressData = st.currentAddressData ∧
      (∀ b, st.currentBuyer = some b → strTruthy b = true →
        st.currentAddressData.isSome = true →
        (processPage bm td st idx txt).savedUsernames.contains b = true)) ∧
    (∀ (bm : List (String × Int)) (td : String) (st : RunState) (idx : Nat)
       (txt : String),
      isNewLabelTxt txt = false → optStrTruthy st.currentBuyer = true →
      (processPage bm td st idx txt).currentSpentTotal =
        st.currentSpentTotal + extract_spent_amount txt) ∧
    (∀ (bm : List (String × Int)) (td : String) (b : String) (pages : List String)
       (st : RunState) (idx n : Nat),
      couplingInv st → st.savedUsernames.contains b = true →
      ∀ e ∈ (eofFlush td n (runPages bm td st idx pages)).upserts,
        e ∈ st.upserts ∨ ¬ e.username = b) :=
  ⟨fun bm td st idx txt hlab hskip =>
     processPage_skip_frame bm td st idx txt hlab hskip,
   fun bm td st idx txt hlab hbuyer =>
     (processPage_continuation bm td st idx txt hlab hbuyer).1,
   fun bm td b pages st idx n hc hsv =>
     runPages_no_upsert_for_saved bm td b pages st idx n hc hsv⟩

/-- A mid-run state with `janed` pending (as after a successful first
boundary page) and nothing flushed yet. -/
def staleState : RunState :=
  { currentBuyer := some "janed", currentFirstName := some "Jane Doe",
    currentSpentTotal := 1000,
    currentAddressData := some (CurAddr.mk "Jane Doe" "janed" "" "123 Main St"
      "" "Springfield" "IL" "62704"),
    savedUsernames := [], skippedPages := [], outputPages := [], upserts := [] }

/-- The same mid-run state after `janed` has been flushed. -/
def staleState2 : RunState :=
  { staleState with savedUsernames := ["janed"] }

/-- C10 (witness): the three parts applied at concrete inputs — the
skipped boundary page leaves `janed` pending and flushed; a
continuation page then adds its 550 cents to the stale total; and a
subsequent run from the flushed state only ever upserts entries for
other buyers (here `bobr`). -/
theorem C10_stale_buyer_amounts_never_persisted_witness :
    ((processPage [] "2026-10-12" staleState 1 pgNoUser).currentBuyer = some "janed" ∧
     (processPage [] "2026-10-12" staleState 1 pgNoUser).savedUsernames.contains "janed" = true) ∧
    (processPage [] "2026-10-12" staleState 2 pgContA).currentSpentTotal =
      staleState.currentSpentTotal + extract_spent_amount pgContA ∧
    (mkEntry (CurAddr.mk "Bob Roe" "bobr" "" "1 Oak Ave" "" "Columbus" "OH"
        "43004") 999 "2026-10-12" "PG001" ∈ staleState2.upserts ∨
      ¬ (mkEntry (CurAddr.mk "Bob Roe" "bobr" "" "1 Oak Ave" "" "Columbus" "OH"
        "43004") 999 "2026-10-12" "PG001").username = "janed") := by
  obtain ⟨part1, part2, part3⟩ := C10_stale_buyer_amounts_never_persisted
  refine ⟨?_, ?_, ?_⟩
  · obtain ⟨hb, _, _, hsv⟩ :=
      part1 [] "2026-10-12" staleState 1 pgNoUser (by decide) (Or.inl (by decide))
    exact ⟨by rw [hb]; rfl, hsv "janed" rfl (by decide) (by decide)⟩
  · exact part2 [] "2026-10-12" staleState 2 pgContA (by decide) (by decide)
  · exact part3 [] "2026-10-12" "janed" [pgBobr] staleState2 0 1
      (fun a ha => by cases ha; rfl) (by decide) _ (by decide)

/-! ## Claim C7 — no partial address is ever emitted -/

/-- `titleAux` preserves length. -/
theorem titleAux_length : ∀ (b : Bool) (l : List Char), (titleAux b l).length = l.length := by
  intro b l
  induction l generalizing b with
  | nil => rfl
  | cons c cs ih =>
    simp only [titleAux]
    split <;> simp [ih]

/-- A nonempty character list titlecases to a nonempty string. -/
theorem strTitle_ne_empty (l : List Char) (h : ¬ l = []) :
    ¬ (⟨titleL l⟩ : String) = "" := by
  intro heq
  have hd : titleL l = [] := congrArg String.data heq
  have hlen := congrArg List.length hd
  rw [titleL, titleAux_length] at hlen
  exact h (List.length_eq_zero.mp (by simpa using hlen))

/-- A nonempty character list lowercases to a nonempty string. -/
theorem strLower_ne_empty (l : List Char) (h : ¬ l = []) :
    ¬ (⟨lowerL l⟩ : String) = "" := by
  intro heq
  have hd : lowerL l = [] := congrArg String.data heq
  have hlen := congrArg List.length hd
  rw [lowerL, List.length_map] at hlen
  exact h (List.length_eq_zero.mp (by simpa using hlen))

/-- A nonempty character list uppercases to a nonempty string. -/
theorem strUpper_ne_empty (l : List Char) (h : ¬ l = []) :
    ¬ (⟨upperL l⟩ : String) = "" := by
  intro heq
  have hd : upperL l = [] := congrArg String.data heq
  have hlen := congrArg List.length hd
  rw [upperL, List.length_map] at hlen
  exact h (List.length_eq_zero.mp (by simpa using hlen))

/-- A nonempty character list is a nonempty string. -/
theorem strMk_ne_empty (l : List Char) (h : ¬ l = []) :
    ¬ (⟨l⟩ : String) = "" := by
  intro heq
  exact h (congrArg String.data heq)

/-- Every segment kept by the punctuation split is nonempty (the code
filters out blank segments). -/
theorem partsOf_mem_ne_nil (s : String) (p : List Char) (hp : p ∈ partsOf s) :
    ¬ p = [] := by
  unfold partsOf at hp
  rcases hfi : findIdentity (cleanLines s) with _ | ⟨fn, un, rest⟩
  · rw [hfi] at hp
    simp at hp
  · rw [hfi] at hp
    simp only [] at hp
    have := (List.mem_filter.mp hp).2
    simpa using this

/-- C7: `parse_packing_slip_address` returns `none` whenever fewer than
4 punctuation-delimited segments remain after stripping everything up to
and including the parenthesized username; and it never returns a
partially filled address — any `some` result has at least 4 segments
available and nonempty `full_name`, `username`, `address_line_1`,
`city`, `state`, `zip_code` and `country` fields assigned per the
segment-assignment rules. -/
theorem C7_no_partial_address :
    (∀ s : String, (partsOf s).length < 4 → parse_packing_slip_address s = none) ∧
    (∀ (s : String) (a : AddressData), parse_packing_slip_address s = some a →
      4 ≤ (partsOf s).length ∧ ¬ a.full_name = "" ∧ ¬ a.username = "" ∧
      ¬ a.address_line_1 = "" ∧ ¬ a.city = "" ∧ ¬ a.state = "" ∧
      ¬ a.zip_code = "" ∧ ¬ a.country = "") := by
  constructor
  · intro s h
    unfold parse_packing_slip_address
    rcases hfi : findIdentity (cleanLines s) with _ | ⟨fn, un, rest⟩
    · rfl
    · simp only []
      split
      · rfl
      · split
        case h_1 p0 p1 p2 p3 r hp =>
          exfalso
          rw [hp] at h
          simp only [List.length_cons] at h
          omega
        case h_2 => rfl
  · intro s a h
    unfold parse_packing_slip_address at h
    rcases hfi : findIdentity (cleanLines s) with _ | ⟨fn, un, rest⟩
    · rw [hfi] at h
      cases h
    · rw [hfi] at h
      simp only [] at h
      split at h
      · cases h
      · case isFalse hguard =>
        have hfn : ¬ fn = [] := by
          intro hx
          exact hguard (by simp [hx])
        have hun : ¬ un = [] := by
          intro hx
          exact hguard (by simp [hx])
        split at h
        case h_1 p0 p1 p2 p3 r hp =>
          have hmem : ∀ q, q ∈ partsOf s → ¬ q = [] := fun q hq =>
            partsOf_mem_ne_nil s q hq
          have hp0 : ¬ p0 = [] := hmem p0 (by rw [hp]; simp)
          have hp1 : ¬ p1 = [] := hmem p1 (by rw [hp]; simp)
          have hp2 : ¬ p2 = [] := hmem p2 (by rw [hp]; simp)
          have hp3 : ¬ p3 = [] := hmem p3 (by rw [hp]; simp)
          have hlen : 4 ≤ (partsOf s).length := by
            rw [hp]
            simp only [List.length_cons]
            omega
          have base : ∀ c : List Char, ¬ c = [] →
              4 ≤ (partsOf s).length ∧
              ¬ (⟨titleL fn⟩ : String) = "" ∧ ¬ (⟨lowerL un⟩ : String) = "" ∧
              ¬ (⟨titleL p0⟩ : String) = "" ∧ ¬ (⟨titleL p1⟩ : String) = "" ∧
              ¬ (⟨upperL p2⟩ : String) = "" ∧ ¬ (⟨p3⟩ : String) = "" ∧
              ¬ (⟨upperL c⟩ : String) = "" :=
            fun c hcne =>
              ⟨hlen, strTitle_ne_empty fn hfn, strLower_ne_empty un hun,
                strTitle_ne_empty p0 hp0, strTitle_ne_empty p1 hp1,
                strUpper_ne_empty p2 hp2, strMk_ne_empty p3 hp3,
                strUpper_ne_empty c hcne⟩
          rcases r with _ | ⟨p4, _ | ⟨p5, t⟩⟩
          · rw [if_neg (by simp)] at h
            injection h with h
            subst h
            exact base "US".data (by decide)
          · rw [if_neg (by simp)] at h
            injection h with h
            subst h
            exact base p4 (hmem p4 (by rw [hp]; simp))
          · split at h
            case isTrue hsix =>
              simp only [] at h
              injection h with h
              subst h
              exact ⟨hlen, strTitle_ne_empty fn hfn, strLower_ne_empty un hun,
                strTitle_ne_empty p0 hp0, strTitle_ne_empty p2 hp2,
                strUpper_ne_empty p3 hp3,
                strMk_ne_empty p4 (hmem p4 (by rw [hp]; simp)),
                strUpper_ne_empty p5 (hmem p5 (by rw [hp]; simp))⟩
            case isFalse hsix =>
              injection h with h
              subst h
              exact base p4 (hmem p4 (by rw [hp]; simp))
        case h_2 => cases h

/-- C7 (witness): the theorem applied at concrete pages — the two-part
address yields `none`, and the fully parsed address has every field
populated. -/
theorem C7_no_partial_address_witness :
    parse_packing_slip_address pgNoAddr = none ∧
    ¬ (AddressData.mk "Jane Doe" "janed" "123 Main St" "" "Springfield" "IL"
        "62704" "US").city = "" :=
  ⟨C7_no_partial_address.1 pgNoAddr (by decide),
   ((C7_no_partial_address.2 pgJaned
      (AddressData.mk "Jane Doe" "janed" "123 Main St" "" "Springfield" "IL"
        "62704" "US") (by decide)).2.2.2.2.1 : _)⟩

end SwiftSale
